import Mathlib

/-!
Shallow embedding of the riven_sniper core pipeline
(normalizer → aggregator → deal matcher → outer pipeline loop),
translated from `src/normalizer.py`, `src/aggregator.py`, `src/monitor.py`,
`src/riven_sniper.py` and `src/config.py`.

Python floats are modelled as `ℚ`, database integer columns as `ℤ`,
SQL text columns as `String`.  Python dicts become association lists,
Python `list.sort` becomes `List.insertionSort` (both are stable sorts).
-/

namespace RivenSniper

/-! ## config.py -/

/-- `MAX_PRICE = 50000` — filter out unrealistic/troll listings above this price. -/
def MAX_PRICE : ℤ := 50000

/-- `SAMPLE_THRESHOLD = 80` — only consider rolls in top 80th percentile by sample size. -/
def SAMPLE_THRESHOLD : ℚ := 80

/-- `GODROLL_COUNT = 5` — top N godrolls to track per weapon. -/
def GODROLL_COUNT : ℕ := 5

/-- `DEAL_THRESHOLD = 0.60` — alert on listings at or below 60% of median price. -/
def DEAL_THRESHOLD : ℚ := 60 / 100

/-! ## normalizer.py: canonical vocabulary and the two source dictionaries -/

/-- The set `CANONICAL_STATS` from `normalizer.py`, as a list of its members
in source order. -/
def CANONICAL_STATS : List String :=
  [ "ammo_max", "cold", "combo_count_chance", "combo_duration", "corpus_damage",
    "crit_chance", "crit_damage", "damage", "electricity", "finisher",
    "fire_rate", "grineer_damage", "heat", "heavy_efficiency", "impact",
    "infested_damage", "initial_combo", "magazine", "multishot",
    "projectile_speed", "punch_through", "puncture", "range", "recoil",
    "reload_speed", "slash", "slide_crit_chance", "status_chance",
    "status_duration", "toxin", "zoom" ]

/-- The dict `RIVEN_MARKET_TO_CANONICAL` from `normalizer.py`,
as an association list in source order. -/
def RIVEN_MARKET_TO_CANONICAL : List (String × String) :=
  [ ("Ammo", "ammo_max"),
    ("ComboGainExtra", "combo_count_chance"),
    ("ComboGainLost", "combo_count_loss"),
    ("Corpus", "corpus_damage"),
    ("Grineer", "grineer_damage"),
    ("Infested", "infested_damage"),
    ("Cold", "cold"),
    ("Combo", "combo_duration"),
    ("CritChance", "crit_chance"),
    ("Slide", "slide_crit_chance"),
    ("CritDmg", "crit_damage"),
    ("Damage", "damage"),
    ("Electric", "electricity"),
    ("Heat", "heat"),
    ("Finisher", "finisher"),
    ("Speed", "fire_rate"),
    ("Flight", "projectile_speed"),
    ("InitC", "initial_combo"),
    ("Impact", "impact"),
    ("Magazine", "magazine"),
    ("ComboEfficiency", "heavy_efficiency"),
    ("Multi", "multishot"),
    ("Toxin", "toxin"),
    ("Punch", "punch_through"),
    ("Puncture", "puncture"),
    ("Reload", "reload_speed"),
    ("Range", "range"),
    ("Slash", "slash"),
    ("StatusC", "status_chance"),
    ("StatusD", "status_duration"),
    ("Recoil", "recoil"),
    ("Zoom", "zoom") ]

/-- The dict `WARFRAME_MARKET_TO_CANONICAL` from `normalizer.py`,
as an association list in source order. -/
def WARFRAME_MARKET_TO_CANONICAL : List (String × String) :=
  [ ("ammo_maximum", "ammo_max"),
    ("chance_to_gain_extra_combo_count", "combo_count_chance"),
    ("chance_to_gain_combo_count", "combo_count_chance"),
    ("damage_vs_corpus", "corpus_damage"),
    ("damage_vs_grineer", "grineer_damage"),
    ("damage_vs_infested", "infested_damage"),
    ("cold_damage", "cold"),
    ("combo_duration", "combo_duration"),
    ("critical_chance", "crit_chance"),
    ("critical_chance_on_slide_attack", "slide_crit_chance"),
    ("critical_damage", "crit_damage"),
    ("base_damage_/_melee_damage", "damage"),
    ("electric_damage", "electricity"),
    ("heat_damage", "heat"),
    ("finisher_damage", "finisher"),
    ("fire_rate_/_attack_speed", "fire_rate"),
    ("projectile_speed", "projectile_speed"),
    ("channeling_damage", "initial_combo"),
    ("impact_damage", "impact"),
    ("magazine_capacity", "magazine"),
    ("channeling_efficiency", "heavy_efficiency"),
    ("multishot", "multishot"),
    ("toxin_damage", "toxin"),
    ("punch_through", "punch_through"),
    ("puncture_damage", "puncture"),
    ("reload_speed", "reload_speed"),
    ("range", "range"),
    ("slash_damage", "slash"),
    ("status_chance", "status_chance"),
    ("status_duration", "status_duration"),
    ("recoil", "recoil"),
    ("zoom", "zoom") ]

/-! ## normalizer.py: functions -/

/-- `normalize_weapon_name`: lowercase, spaces and hyphens replaced by
underscores; empty input yields empty output. -/
def normalize_weapon_name (weapon : String) : String :=
  ((weapon.toLower).replace " " "_").replace "-" "_"

/-- `normalize_stat_name`: look the stat up in the dictionary of its source;
any other source yields `none` (Python `None`). -/
def normalize_stat_name (stat : String) (source : String) : Option String :=
  if source = "riven.market" then
    (RIVEN_MARKET_TO_CANONICAL.find? (fun p => p.1 = stat)).map Prod.snd
  else if source = "warframe.market" then
    (WARFRAME_MARKET_TO_CANONICAL.find? (fun p => p.1 = stat)).map Prod.snd
  else
    none

/-- One iteration of the loop body of `normalize_riven_stats`: an empty slot
passes through as empty, a non-empty slot is mapped through the source's
dictionary (`none` when unmapped). -/
def normStat (stat : String) (source : String) : Option String :=
  if stat = "" then some "" else normalize_stat_name stat source

/-- `normalize_riven_stats`: map all four slots; fail (return `none`) as soon
as one non-empty slot is unmapped. -/
def normalize_riven_stats (stat1 stat2 stat3 stat4 : String) (source : String) :
    Option (String × String × String × String) :=
  match normStat stat1 source, normStat stat2 source,
        normStat stat3 source, normStat stat4 source with
  | some a, some b, some c, some d => some (a, b, c, d)
  | _, _, _, _ => none

/-- `sort_positive_stats`: keep non-empty positives of the first three slots,
sort ascending, right-pad with empty strings to three, append slot 4. -/
def sort_positive_stats (stat1 stat2 stat3 stat4 : String) : List String :=
  let positives := ([stat1, stat2, stat3].filter (fun s => s ≠ "")).insertionSort (· ≤ ·)
  (positives ++ List.replicate (3 - positives.length) "") ++ [stat4]

/-- `normalize`: the profile key as the 5-element list
`[normalized weapon, slot1, slot2, slot3, slot4]`, or `none` on failure. -/
def normalize (weapon stat1 stat2 stat3 stat4 : String) (source : String) :
    Option (List String) :=
  match normalize_riven_stats stat1 stat2 stat3 stat4 source with
  | none => none
  | some (a, b, c, d) => some (normalize_weapon_name weapon :: sort_positive_stats a b c d)

/-! ## Data model: listings and profile keys (store schema of §6) -/

/-- A row of the `listings` table:
`listings(id PK, seller, source, weapon, stat1..stat4, price, scraped_at)`. -/
structure Listing where
  id : String
  seller : String
  source : String
  weapon : String
  stat1 : String
  stat2 : String
  stat3 : String
  stat4 : String
  price : ℤ
  scraped_at : String
deriving DecidableEq, Repr

/-- A profile key: weapon plus the four stat slots. -/
abbrev ProfileKey := String × String × String × String × String

/-- The profile key of a listing row. -/
def Listing.key (l : Listing) : ProfileKey :=
  (l.weapon, l.stat1, l.stat2, l.stat3, l.stat4)

/-! ## aggregator.py: the deduplicating query and profile samples

The SQL in `aggregate`:
```
SELECT weapon, stat1, stat2, stat3, stat4, MIN(price) as price
FROM listings WHERE price > 0 AND price < ? GROUP BY seller, weapon, stat1..4
```
is modelled as: filter by price validity, enumerate the distinct
`(seller, profile_key)` groups (SQL leaves row order unspecified; we use
first-appearance order), and take the minimum price of each group.
`build_profiles_from_listings` then collects, per profile key, the prices
of the rows of that key. -/

/-- The `WHERE price > 0 AND price < MAX_PRICE` filter. -/
def validPrice (l : Listing) : Bool :=
  decide (0 < l.price) && decide (l.price < MAX_PRICE)

/-- The distinct `(seller, profile_key)` groups of the filtered listings. -/
def dedupGroups (listings : List Listing) : List (String × ProfileKey) :=
  ((listings.filter validPrice).map (fun l => (l.seller, l.key))).dedup

/-- The valid prices one seller has listed for one profile key. -/
def groupPrices (listings : List Listing) (s : String) (k : ProfileKey) : List ℤ :=
  ((listings.filter validPrice).filter
    (fun l => decide (l.seller = s) && decide (l.key = k))).map (fun l => l.price)

/-- Minimum of a list of integers (`MIN(price)` over a nonempty group;
`0` on the empty list, which no group produces). -/
def listMin : List ℤ → ℤ
  | [] => 0
  | a :: t => t.foldl min a

/-- The rows produced by the deduplicating `GROUP BY seller, weapon, stat1..4`
query: one row per `(seller, profile_key)` group carrying the group's
minimum valid price. -/
def dedupRows (listings : List Listing) : List (String × ProfileKey × ℤ) :=
  (dedupGroups listings).map
    (fun g => (g.1, g.2, listMin (groupPrices listings g.1 g.2)))

/-- `build_profiles_from_listings` applied to the query rows: the price
sample of one profile key. -/
def profileSample (listings : List Listing) (k : ProfileKey) : List ℤ :=
  ((dedupRows listings).filter (fun r => decide (r.2.1 = k))).map (fun r => r.2.2)

/-! ## aggregator.py: percentiles and godroll selection -/

/-- One element of the `aggregated` list: profile key plus
`statistics.median(prices)` and `len(prices)`. -/
structure AggProfile where
  weapon : String
  stat1 : String
  stat2 : String
  stat3 : String
  stat4 : String
  median_price : ℚ
  sample_count : ℕ
deriving DecidableEq, Repr

/-- `calculate_percentiles`: rank each profile's `sample_count` by its first
occurrence in the ascending-sorted list of the group's sample counts;
`percentile = (rank / group_size) * 100`. -/
def calculate_percentiles (weapon_rolls : List AggProfile) : List (AggProfile × ℚ) :=
  let sample_counts := weapon_rolls.map (fun p => p.sample_count)
  let sorted_counts := sample_counts.insertionSort (· ≤ ·)
  weapon_rolls.map (fun p =>
    (p, ((sorted_counts.indexOf p.sample_count : ℚ) / (sample_counts.length : ℚ)) * 100))

/-- `determine_godrolls`: keep profiles at or above `SAMPLE_THRESHOLD`,
sort by median price descending (stable, like Python's `list.sort` with
`reverse=True`), take the top `GODROLL_COUNT`. -/
def determine_godrolls (ps : List (AggProfile × ℚ)) : List (AggProfile × ℚ) :=
  ((ps.filter (fun r => decide (SAMPLE_THRESHOLD ≤ r.2))).insertionSort
    (fun a b => b.1.median_price ≤ a.1.median_price)).take GODROLL_COUNT

/-! ## monitor.py: deal matching -/

/-- A row of the `godrolls` table. -/
structure Godroll where
  weapon : String
  stat1 : String
  stat2 : String
  stat3 : String
  stat4 : String
  median_price : ℚ
  sample_count : ℤ
  sample_percentile : ℚ
deriving DecidableEq, Repr

/-- The profile key of a godroll row (the table's primary key). -/
def Godroll.key (g : Godroll) : ProfileKey :=
  (g.weapon, g.stat1, g.stat2, g.stat3, g.stat4)

/-- The `Deal` TypedDict of `monitor.py`. -/
structure Deal where
  id : String
  weapon : String
  stats : List String
  price : ℤ
  median_price : ℚ
  discount_percentage : ℚ
  seller : String
  source : String
  scraped_at : String
  sample_count : ℤ
  sample_count_percentile : ℚ
deriving DecidableEq, Repr

/-- The `WHERE` clause of the per-godroll listings query in `find_deals`:
exact profile-key match, `price <= median_price * threshold`, `price > 0`. -/
def matchesGodroll (g : Godroll) (thr : ℚ) (l : Listing) : Bool :=
  decide (l.key = g.key) && decide ((l.price : ℚ) ≤ g.median_price * thr)
    && decide (0 < l.price)

/-- The per-godroll query result: matching listings ordered by `scraped_at`
descending, `LIMIT 10`. -/
def cheapListings (listings : List Listing) (g : Godroll) (thr : ℚ) : List Listing :=
  ((listings.filter (matchesGodroll g thr)).insertionSort
    (fun a b => b.scraped_at ≤ a.scraped_at)).take 10

/-- The deal record appended for one candidate listing. -/
def mkDeal (g : Godroll) (l : Listing) : Deal :=
  { id := l.id
    weapon := g.weapon
    stats := [g.stat1, g.stat2, g.stat3, g.stat4]
    price := l.price
    median_price := g.median_price
    discount_percentage := (g.median_price - (l.price : ℚ)) / g.median_price * 100
    seller := l.seller
    source := l.source
    scraped_at := l.scraped_at
    sample_count := g.sample_count
    sample_count_percentile := g.sample_percentile }

/-- `INSERT OR IGNORE INTO alerted_listings`: append the id unless present. -/
def insertOrIgnore (tbl : List String) (i : String) : List String :=
  if i ∈ tbl then tbl else tbl ++ [i]

/-- The inner `for listing in cheap_listings` loop of `find_deals`:
skip candidates already in the `alerted` snapshot, otherwise append a deal
and insert the id into the `alerted_listings` table. -/
def processListings (g : Godroll) (alerted0 : List String) :
    List Listing → List Deal × List String → List Deal × List String
  | [], acc => acc
  | l :: rest, acc =>
      if l.id ∈ alerted0 then processListings g alerted0 rest acc
      else processListings g alerted0 rest
        (acc.1 ++ [mkDeal g l], insertOrIgnore acc.2 l.id)

/-- The outer `for godroll in current_godrolls` loop of `find_deals`. -/
def processGodrolls (listings : List Listing) (thr : ℚ) (alerted0 : List String) :
    List Godroll → List Deal × List String → List Deal × List String
  | [], acc => acc
  | g :: gs, acc =>
      processGodrolls listings thr alerted0 gs
        (processListings g alerted0 (cheapListings listings g thr) acc)

/-- `find_deals`: read the `alerted_listings` snapshot, loop over godrolls,
return the deals and the updated (committed) `alerted_listings` table. -/
def find_deals (listings : List Listing) (godrolls : List Godroll) (thr : ℚ)
    (alerted : List String) : List Deal × List String :=
  processGodrolls listings thr alerted godrolls ([], alerted)

/-- One `find_deals` call's inputs, for chaining calls over a shared
`alerted_listings` state. -/
structure FDInput where
  listings : List Listing
  godrolls : List Godroll
  threshold : ℚ

/-- A sequence of `find_deals` calls threading the persisted
`alerted_listings` state: the per-call deal lists and the final state. -/
def runChain : List FDInput → List String → List (List Deal) × List String
  | [], a => ([], a)
  | inp :: rest, a =>
      let r := find_deals inp.listings inp.godrolls inp.threshold a
      let r2 := runChain rest r.2
      (r.1 :: r2.1, r2.2)

/-! ## riven_sniper.py: `run_pipeline` control flow

`run_pipeline` is modelled by which phases it attempts, as a function of
which phases raise and of the `should_aggregate()` gate:
```
try: poll()
except Exception: log; return        -- aborts the rest of the cycle
if should_aggregate():
    try: aggregate()
    except Exception: log            -- caught, fall through
try: monitor()
except Exception: log                -- caught
```
-/

/-- The environment of one `run_pipeline` call: which phases would raise,
and the value of the `should_aggregate()` gate. -/
structure PipelineFaults where
  pollRaises : Bool
  shouldAggregateFlag : Bool
  aggregateRaises : Bool
  monitorRaises : Bool
deriving DecidableEq, Repr

/-- Which phases a `run_pipeline` call attempted to run. -/
structure PhasesRan where
  pollAttempted : Bool
  aggregateAttempted : Bool
  monitorAttempted : Bool
deriving DecidableEq, Repr

/-- `run_pipeline`: a poller exception is logged and the function returns;
an aggregator or monitor exception is logged and execution continues. -/
def run_pipeline (f : PipelineFaults) : PhasesRan :=
  if f.pollRaises then ⟨true, false, false⟩
  else if f.shouldAggregateFlag then ⟨true, true, true⟩
  else ⟨true, false, true⟩

/-! ## aggregator.py: store effects of `aggregate()` against the godrolls table

`aggregate()` issues, on one fresh sqlite connection:
`DROP TABLE IF EXISTS godrolls`; `CREATE TABLE godrolls ...` (both DDL);
`SELECT ...` (read); `INSERT INTO godrolls ...` (DML); `conn.commit()`.
Under Python's `sqlite3` legacy transaction control (the default), an
implicit transaction is opened only before INSERT/UPDATE/DELETE/REPLACE
statements; DDL executed while no transaction is open runs in autocommit
mode and is durable immediately.  The model below tracks the durable
(committed) godrolls table across the statement sequence: `committed` is
the table on disk (`none` = table absent), `pending` is the open
transaction's view when a transaction is open.  A store failure at any
point discards `pending` (rollback) and keeps `committed`. -/

/-- One store-affecting step of `aggregate()`. -/
inductive AggStep where
  | dropGodrolls
  | createGodrolls
  | insertGodrolls (rows : List Godroll)
  | commitTxn
deriving DecidableEq, Repr

/-- Durable and in-transaction view of the godrolls table. -/
structure StoreState where
  committed : Option (List Godroll)
  pending : Option (Option (List Godroll))
deriving DecidableEq, Repr

/-- Statement semantics: DDL inside an open transaction stays pending, DDL
with no open transaction autocommits; DML opens the implicit transaction;
`commit` publishes the pending view. -/
def applyStep (st : StoreState) (s : AggStep) : StoreState :=
  match s with
  | .dropGodrolls =>
      match st.pending with
      | some _ => { st with pending := some none }
      | none => { committed := none, pending := none }
  | .createGodrolls =>
      match st.pending with
      | some _ => { st with pending := some (some []) }
      | none => { committed := some [], pending := none }
  | .insertGodrolls rows =>
      let cur := st.pending.getD st.committed
      { st with pending := some (some (cur.getD [] ++ rows)) }
  | .commitTxn =>
      match st.pending with
      | some v => { committed := v, pending := none }
      | none => st

/-- Run a statement sequence from an initial store state. -/
def runSteps (st : StoreState) (steps : List AggStep) : StoreState :=
  steps.foldl applyStep st

/-- The durable godrolls table after executing `steps` from a committed
baseline and then failing (uncommitted work rolls back). -/
def committedTable (baseline : List Godroll) (steps : List AggStep) :
    Option (List Godroll) :=
  (runSteps ⟨some baseline, none⟩ steps).committed

/-- The statement sequence `aggregate()` issues against the godrolls table,
given the godroll rows it computed. -/
def aggregateSteps (rows : List Godroll) : List AggStep :=
  [AggStep.dropGodrolls, AggStep.createGodrolls,
   AggStep.insertGodrolls rows, AggStep.commitTxn]

/-! ## Helper lemmas: normalizer -/

lemma normStat_eq_none_iff (s src : String) :
    normStat s src = none ↔ s ≠ "" ∧ normalize_stat_name s src = none := by
  unfold normStat
  split <;> simp_all

lemma normalize_eq_none_iff (w s1 s2 s3 s4 src : String) :
    normalize w s1 s2 s3 s4 src = none ↔
      (normStat s1 src = none ∨ normStat s2 src = none ∨
        normStat s3 src = none ∨ normStat s4 src = none) := by
  unfold normalize normalize_riven_stats
  cases normStat s1 src <;> cases normStat s2 src <;>
    cases normStat s3 src <;> cases normStat s4 src <;> simp

lemma normalize_riven_stats_elim (s1 s2 s3 s4 src a b c d : String)
    (h : normalize_riven_stats s1 s2 s3 s4 src = some (a, b, c, d)) :
    normStat s1 src = some a ∧ normStat s2 src = some b ∧
      normStat s3 src = some c ∧ normStat s4 src = some d := by
  revert h
  unfold normalize_riven_stats
  cases h1 : normStat s1 src <;> cases h2 : normStat s2 src <;>
    cases h3 : normStat s3 src <;> cases h4 : normStat s4 src <;>
    intro h <;> simp_all

lemma normalize_eq_some_elim (w s1 s2 s3 s4 src : String) (r : List String)
    (h : normalize w s1 s2 s3 s4 src = some r) :
    ∃ a b c d, normalize_riven_stats s1 s2 s3 s4 src = some (a, b, c, d) ∧
      r = normalize_weapon_name w :: sort_positive_stats a b c d := by
  revert h
  unfold normalize
  cases hq : normalize_riven_stats s1 s2 s3 s4 src with
  | none => simp
  | some q =>
      obtain ⟨a, b, c, d⟩ := q
      intro h
      simp only [Option.some.injEq] at h
      exact ⟨a, b, c, d, rfl, h.symm⟩

lemma cons_sort_positive_stats_getLast (x a b c d : String) :
    (x :: sort_positive_stats a b c d).getLast? = some d := by
  have h : ∀ l : List String, (x :: (l ++ [d])).getLast? = some d := by
    intro l
    rw [← List.cons_append]
    exact List.getLast?_concat _
  exact h _

/-! ## Theorems for the claims -/

/-- C9: for a marketplace source, `normalize` fails (returns `None`) iff at
least one non-empty stat token has no entry in that source's canonical
dictionary; on success an empty negative slot passes through as empty. -/
theorem c9_fail_closed_iff_unmapped (w s1 s2 s3 s4 src : String)
    (_hsrc : src = "riven.market" ∨ src = "warframe.market") :
    (normalize w s1 s2 s3 s4 src = none ↔
      ∃ s ∈ ([s1, s2, s3, s4] : List String),
        s ≠ "" ∧ normalize_stat_name s src = none)
    ∧ (∀ r, normalize w s1 s2 s3 s4 src = some r → s4 = "" →
        r.getLast? = some "") := by
  constructor
  · rw [normalize_eq_none_iff]
    simp only [List.mem_cons, List.mem_singleton, List.not_mem_nil]
    constructor
    · rintro (h | h | h | h) <;>
        [exact ⟨s1, Or.inl rfl, (normStat_eq_none_iff _ _).mp h⟩;
         exact ⟨s2, Or.inr (Or.inl rfl), (normStat_eq_none_iff _ _).mp h⟩;
         exact ⟨s3, Or.inr (Or.inr (Or.inl rfl)), (normStat_eq_none_iff _ _).mp h⟩;
         exact ⟨s4, Or.inr (Or.inr (Or.inr (Or.inl rfl))), (normStat_eq_none_iff _ _).mp h⟩]
    · rintro ⟨s, hs, hne, hnone⟩
      have hn : normStat s src = none := (normStat_eq_none_iff _ _).mpr ⟨hne, hnone⟩
      rcases hs with rfl | rfl | rfl | rfl | h
      · exact Or.inl hn
      · exact Or.inr (Or.inl hn)
      · exact Or.inr (Or.inr (Or.inl hn))
      · exact Or.inr (Or.inr (Or.inr hn))
      · cases h
  · intro r h h4
    subst h4
    obtain ⟨a, b, c, d, hq, hr⟩ := normalize_eq_some_elim w s1 s2 s3 "" src r h
    obtain ⟨-, -, -, hd⟩ := normalize_riven_stats_elim s1 s2 s3 "" src a b c d hq
    have hd' : d = "" := by
      have : (some "" : Option String) = some d := by simpa [normStat] using hd
      exact (Option.some.injEq _ _ ▸ this).symm
    subst hd'
    subst hr
    exact cons_sort_positive_stats_getLast _ a b c ""

/-- C9 witness: at a concrete unmapped riven.market token the failure
equivalence and the empty-slot pass-through hold. -/
theorem c9_fail_closed_iff_unmapped_witness :
    ("riven.market" = "riven.market" ∨ "riven.market" = "warframe.market")
    ∧ ((normalize "Soma" "Bogus" "" "" "" "riven.market" = none ↔
        ∃ s ∈ (["Bogus", "", "", ""] : List String),
          s ≠ "" ∧ normalize_stat_name s "riven.market" = none)
      ∧ (∀ r, normalize "Soma" "Bogus" "" "" "" "riven.market" = some r → "" = "" →
          r.getLast? = some "")) :=
  ⟨Or.inl rfl,
    c9_fail_closed_iff_unmapped "Soma" "Bogus" "" "" "" "riven.market" (Or.inl rfl)⟩

/-- C10: for an unknown source, `normalize` fails whenever some stat slot is
non-empty, but succeeds with an all-empty stat tuple when every slot is
empty — the unknown-source check is applied per non-empty stat. -/
theorem c10_unknown_source (w s1 s2 s3 s4 src : String)
    (h1 : src ≠ "riven.market") (h2 : src ≠ "warframe.market") :
    ((s1 ≠ "" ∨ s2 ≠ "" ∨ s3 ≠ "" ∨ s4 ≠ "") →
      normalize w s1 s2 s3 s4 src = none)
    ∧ normalize w "" "" "" "" src =
        some [normalize_weapon_name w, "", "", "", ""] := by
  have hmap : ∀ s : String, normalize_stat_name s src = none := by
    intro s
    unfold normalize_stat_name
    rw [if_neg h1, if_neg h2]
  constructor
  · intro hne
    rw [normalize_eq_none_iff]
    rcases hne with h | h | h | h <;>
      [exact Or.inl ((normStat_eq_none_iff _ _).mpr ⟨h, hmap s1⟩);
       exact Or.inr (Or.inl ((normStat_eq_none_iff _ _).mpr ⟨h, hmap s2⟩));
       exact Or.inr (Or.inr (Or.inl ((normStat_eq_none_iff _ _).mpr ⟨h, hmap s3⟩)));
       exact Or.inr (Or.inr (Or.inr ((normStat_eq_none_iff _ _).mpr ⟨h, hmap s4⟩)))]
  · simp [normalize, normalize_riven_stats, normStat, sort_positive_stats]

/-- C10 witness: a concrete unknown source fails on one non-empty slot and
succeeds with the padded empty key on all-empty slots. -/
theorem c10_unknown_source_witness :
    ("other.source" ≠ "riven.market" ∧ "other.source" ≠ "warframe.market")
    ∧ ((("Damage" ≠ "" ∨ "" ≠ "" ∨ "" ≠ "" ∨ "" ≠ "") →
        normalize "Soma" "Damage" "" "" "" "other.source" = none)
      ∧ normalize "Soma" "" "" "" "" "other.source" =
          some [normalize_weapon_name "Soma", "", "", "", ""]) :=
  ⟨⟨by decide, by decide⟩,
    c10_unknown_source "Soma" "Damage" "" "" "" "other.source"
      (by decide) (by decide)⟩

/-- C4 (the code violates the claim): the riven.market dictionary maps
`"ComboGainLost"` to `"combo_count_loss"`, which is not a member of
`CANONICAL_STATS`; every value of the warframe.market dictionary is
canonical, and this is the only non-canonical value of the riven.market
dictionary. -/
theorem c4_combo_count_loss_not_canonical :
    normalize_stat_name "ComboGainLost" "riven.market" = some "combo_count_loss"
    ∧ CANONICAL_STATS.contains "combo_count_loss" = false
    ∧ (RIVEN_MARKET_TO_CANONICAL.map Prod.snd).filter
        (fun v => !CANONICAL_STATS.contains v) = ["combo_count_loss"]
    ∧ (WARFRAME_MARKET_TO_CANONICAL.map Prod.snd).all
        (fun v => CANONICAL_STATS.contains v) = true := by
  exact ⟨rfl, rfl, rfl, rfl⟩

/-- C3 counterexample: in a cycle whose scrape/poll phase raises (with the
daily aggregation gate open), `run_pipeline` returns early, so neither the
aggregation phase nor the match/alert phase of that cycle runs. -/
theorem c3_counterexample_poll_failure_aborts_cycle :
    (run_pipeline ⟨true, true, false, false⟩).aggregateAttempted = false
    ∧ (run_pipeline ⟨true, true, false, false⟩).monitorAttempted = false :=
  ⟨rfl, rfl⟩

/-- C3 amended: a failure in the aggregation phase (or the match phase) does
not prevent the match/alert phase of the same cycle — the match phase runs
exactly when the scrape/poll phase did not raise — but a scrape/poll failure
aborts the remainder of the cycle. -/
theorem c3_amended_phase_isolation (f : PipelineFaults) :
    (run_pipeline f).pollAttempted = true
    ∧ (run_pipeline f).aggregateAttempted = (!f.pollRaises && f.shouldAggregateFlag)
    ∧ (run_pipeline f).monitorAttempted = !f.pollRaises := by
  obtain ⟨p, s, a, m⟩ := f
  cases p <;> cases s <;> simp [run_pipeline]

/-- The pre-run baseline godroll row used in the C2 evaluation. -/
def baselineRow : Godroll :=
  ⟨"soma", "crit_chance", "damage", "", "recoil", 100, 6, 83⟩

/-- The freshly computed godroll row used in the C2 evaluation. -/
def rebuiltRow : Godroll :=
  ⟨"rubico", "crit_chance", "crit_damage", "", "zoom", 200, 9, 90⟩

/-- C2 (the code violates the claim): a full `aggregate()` run commits the
rebuilt set, but because the `DROP TABLE`/`CREATE TABLE` statements
autocommit (Python sqlite3 opens the implicit transaction only for DML),
a store failure after them and before `conn.commit()` leaves the godrolls
table committed as empty — neither the pre-run baseline nor the rebuilt
set. -/
theorem c2_drop_commits_outside_transaction :
    committedTable [baselineRow] (aggregateSteps [rebuiltRow]) = some [rebuiltRow]
    ∧ committedTable [baselineRow] ((aggregateSteps [rebuiltRow]).take 2) = some []
    ∧ committedTable [baselineRow] ((aggregateSteps [rebuiltRow]).take 3) = some []
    ∧ decide (([] : List Godroll) = [baselineRow]) = false
    ∧ decide (([] : List Godroll) = [rebuiltRow]) = false := by
  exact ⟨rfl, rfl, rfl, by decide, by decide⟩

/-! ## Helper lemmas: percentile ranking (C5) -/

/-- In an ascending-sorted list, the index of the first occurrence of a
member equals the number of strictly smaller elements (the lower-bound
rank shared by tied values). -/
lemma indexOf_sorted_eq_countP :
    ∀ {l : List ℕ}, l.Sorted (· ≤ ·) → ∀ {c : ℕ}, c ∈ l →
      l.indexOf c = l.countP (fun x => decide (x < c)) := by
  intro l
  induction l with
  | nil => intro _ c hc; cases hc
  | cons a t ih =>
      intro hs c hc
      rw [List.sorted_cons] at hs
      obtain ⟨ha, hst⟩ := hs
      rw [List.countP_cons]
      by_cases hac : a = c
      · subst hac
        rw [List.indexOf_cons_self]
        have h0 : t.countP (fun x => decide (x < a)) = 0 := by
          rw [List.countP_eq_zero]
          intro x hx
          simpa using Nat.not_lt.mpr (ha x hx)
        simp [h0]
      · have hct : c ∈ t := by
          rcases List.mem_cons.mp hc with h | h
          · exact absurd h.symm hac
          · exact h
        rw [List.indexOf_cons_ne t hac, ih hst hct]
        have hlt : a < c := lt_of_le_of_ne (ha c hct) hac
        simp [hlt]

/-- `calculate_percentiles` in closed form: each profile is paired with
`(strict-lower-count / group size) * 100`, the lower-bound rank formula. -/
lemma calculate_percentiles_eq (rolls : List AggProfile) :
    calculate_percentiles rolls = rolls.map (fun p =>
      (p, ((((rolls.map (fun q => q.sample_count)).countP
              (fun c => decide (c < p.sample_count))) : ℚ)
            / (rolls.length : ℚ)) * 100)) := by
  unfold calculate_percentiles
  refine List.map_congr_left (fun p hp => ?_)
  have hmem : p.sample_count ∈ rolls.map (fun q => q.sample_count) :=
    List.mem_map_of_mem _ hp
  have hsorted : ((rolls.map (fun q => q.sample_count)).insertionSort (· ≤ ·)).Sorted (· ≤ ·) :=
    List.sorted_insertionSort _ _
  have hmem' : p.sample_count ∈ (rolls.map (fun q => q.sample_count)).insertionSort (· ≤ ·) :=
    (List.mem_insertionSort _).mpr hmem
  have hidx := indexOf_sorted_eq_countP hsorted hmem'
  have hperm := (List.perm_insertionSort (· ≤ ·) (rolls.map (fun q => q.sample_count)))
  rw [hidx, hperm.countP_eq, List.length_map]

/-- A profile of the C5 example weapon group with a given sample count. -/
def sampleProfile (c : ℕ) : AggProfile :=
  ⟨"soma", "crit_chance", "damage", "", "recoil", 100, c⟩

/-- C5: in every weapon group, each profile's percentile is
`(rank / group_size) * 100` with `rank` the zero-based position of the first
occurrence of its sample count in the ascending-sorted count list —
equivalently the number of strictly smaller counts (tied counts share the
lower-bound rank); for counts `[1, 5, 10, 20]` the count-20 profile gets 75,
and a single-profile weapon gets 0 and is excluded at the default
threshold 80. -/
theorem c5_percentile_rank :
    (∀ rolls : List AggProfile,
      calculate_percentiles rolls = rolls.map (fun p =>
        (p, ((((rolls.map (fun q => q.sample_count)).insertionSort
                  (· ≤ ·)).indexOf p.sample_count : ℚ)
              / (rolls.length : ℚ)) * 100)))
    ∧ (∀ rolls : List AggProfile,
      calculate_percentiles rolls = rolls.map (fun p =>
        (p, ((((rolls.map (fun q => q.sample_count)).countP
                (fun c => decide (c < p.sample_count))) : ℚ)
              / (rolls.length : ℚ)) * 100)))
    ∧ calculate_percentiles
        [sampleProfile 1, sampleProfile 5, sampleProfile 10, sampleProfile 20]
        = [(sampleProfile 1, 0), (sampleProfile 5, 25),
           (sampleProfile 10, 50), (sampleProfile 20, 75)]
    ∧ calculate_percentiles [sampleProfile 7] = [(sampleProfile 7, 0)]
    ∧ determine_godrolls (calculate_percentiles [sampleProfile 7]) = [] := by
  refine ⟨?_, calculate_percentiles_eq, ?_, ?_, ?_⟩
  · intro rolls
    unfold calculate_percentiles
    refine List.map_congr_left (fun p hp => ?_)
    rw [List.length_map]
  · norm_num [calculate_percentiles, sampleProfile, List.insertionSort, List.orderedInsert]
  · norm_num [calculate_percentiles, sampleProfile, List.insertionSort, List.orderedInsert]
  · norm_num [calculate_percentiles, determine_godrolls, sampleProfile, SAMPLE_THRESHOLD,
      List.insertionSort, List.orderedInsert, List.filter]

/-! ## Helper lemmas: per-seller dedup (C7) -/

lemma nodup_filter_eq_singleton {α : Type} [DecidableEq α] :
    ∀ {l : List α}, l.Nodup → ∀ y : α,
      l.filter (fun x => decide (x = y)) = if y ∈ l then [y] else [] := by
  intro l
  induction l with
  | nil => intro _ y; simp
  | cons a t ih =>
      intro hnd y
      rw [List.nodup_cons] at hnd
      obtain ⟨hat, hnd⟩ := hnd
      rw [List.filter_cons]
      by_cases hay : a = y
      · subst hay
        have ht : t.filter (fun x => decide (x = a)) = [] := by
          rw [ih hnd a, if_neg hat]
        simp [ht]
      · have hya : ¬(y = a) := fun h => hay h.symm
        simp [hay, hya, ih hnd y]

lemma mem_dedupGroups_iff (L : List Listing) (s : String) (k : ProfileKey) :
    (s, k) ∈ dedupGroups L ↔ groupPrices L s k ≠ [] := by
  unfold dedupGroups groupPrices
  rw [List.mem_dedup, List.mem_map]
  rw [ne_eq, List.map_eq_nil_iff, List.filter_eq_nil_iff]
  push_neg
  constructor
  · rintro ⟨l, hl, heq⟩
    refine ⟨l, hl, ?_⟩
    have h1 : l.seller = s := congrArg Prod.fst heq
    have h2 : l.key = k := congrArg Prod.snd heq
    simp [h1, h2]
  · rintro ⟨l, hl, hp⟩
    refine ⟨l, hl, ?_⟩
    simp only [Bool.and_eq_true, decide_eq_true_eq] at hp
    rw [hp.1, hp.2]

lemma dedupRows_filter (L : List Listing) (s : String) (k : ProfileKey) :
    (dedupRows L).filter (fun r => decide (r.1 = s) && decide (r.2.1 = k))
      = if groupPrices L s k = [] then []
        else [(s, k, listMin (groupPrices L s k))] := by
  unfold dedupRows
  rw [List.filter_map]
  have hcong : (dedupGroups L).filter
      ((fun (r : String × ProfileKey × ℤ) => decide (r.1 = s) && decide (r.2.1 = k)) ∘
        (fun g => (g.1, g.2, listMin (groupPrices L g.1 g.2))))
      = (dedupGroups L).filter (fun g => decide (g = (s, k))) := by
    refine List.filter_congr (fun g _ => ?_)
    obtain ⟨gs, gk⟩ := g
    simp [Prod.ext_iff]
  have hnd : (dedupGroups L).Nodup := by
    unfold dedupGroups
    exact List.nodup_dedup _
  rw [hcong, nodup_filter_eq_singleton hnd (s, k)]
  by_cases hmem : (s, k) ∈ dedupGroups L
  · rw [if_pos hmem, if_neg ((mem_dedupGroups_iff L s k).mp hmem)]
    simp
  · rw [if_neg hmem]
    have : groupPrices L s k = [] := by
      by_contra hne
      exact hmem ((mem_dedupGroups_iff L s k).mpr hne)
    rw [if_pos this]
    simp

/-- Example listings for C7: the same seller lists the same profile twice. -/
def dupListingA : Listing :=
  ⟨"rm-1", "alice", "riven.market", "soma", "crit_chance", "damage", "", "recoil",
    100, "2024-01-01T00:00:00"⟩

/-- Second listing of the same seller and profile at a lower price. -/
def dupListingB : Listing :=
  ⟨"rm-2", "alice", "riven.market", "soma", "crit_chance", "damage", "", "recoil",
    80, "2024-01-02T00:00:00"⟩

/-- Example listing for C7 with non-positive price. -/
def invalidListingLow : Listing :=
  ⟨"rm-3", "alice", "riven.market", "soma", "crit_chance", "damage", "", "recoil",
    0, "2024-01-03T00:00:00"⟩

/-- Example listing for C7 with price at the `MAX_PRICE` ceiling. -/
def invalidListingHigh : Listing :=
  ⟨"rm-4", "alice", "riven.market", "soma", "crit_chance", "damage", "", "recoil",
    50000, "2024-01-04T00:00:00"⟩

/-- C7: the deduplicating query emits, per `(seller, profile_key)` group, at
most one row — exactly the minimum of that seller's valid prices for that
key when the seller has any, and no row otherwise; observations failing
`0 < price < MAX_PRICE` are discarded entirely (pre-filtering to valid
listings changes nothing); prices 100 and 80 from one seller contribute
only 80, and invalid prices contribute nothing. -/
theorem c7_per_seller_minimum :
    (∀ (L : List Listing) (s : String) (k : ProfileKey),
      (dedupRows L).filter (fun r => decide (r.1 = s) && decide (r.2.1 = k))
        = if groupPrices L s k = [] then []
          else [(s, k, listMin (groupPrices L s k))])
    ∧ (∀ (L : List Listing) (s : String) (k : ProfileKey),
      ((dedupRows L).filter (fun r => decide (r.1 = s) && decide (r.2.1 = k))).length ≤ 1)
    ∧ (∀ (L : List Listing) (k : ProfileKey),
      profileSample (L.filter validPrice) k = profileSample L k)
    ∧ profileSample [dupListingA, dupListingB]
        ("soma", "crit_chance", "damage", "", "recoil") = [80]
    ∧ profileSample [invalidListingLow, invalidListingHigh]
        ("soma", "crit_chance", "damage", "", "recoil") = [] := by
  refine ⟨dedupRows_filter, ?_, ?_, by decide, by decide⟩
  · intro L s k
    rw [dedupRows_filter]
    split <;> simp
  · intro L k
    have h : (L.filter validPrice).filter validPrice = L.filter validPrice := by
      simp [List.filter_filter]
    unfold profileSample dedupRows dedupGroups groupPrices
    simp only [h]

/-! ## Helper lemmas: deal matching (C6, C1) -/

instance : IsTotal Listing (fun a b => b.scraped_at ≤ a.scraped_at) :=
  ⟨fun a b => le_total b.scraped_at a.scraped_at⟩

instance : IsTrans Listing (fun a b => b.scraped_at ≤ a.scraped_at) :=
  ⟨fun _ _ _ hab hbc => le_trans hbc hab⟩

/-- The candidates of one godroll that are not in the `alerted` snapshot:
exactly the listings `find_deals` turns into deals for that godroll. -/
def newCandidates (L : List Listing) (thr : ℚ) (a0 : List String) (g : Godroll) :
    List Listing :=
  (cheapListings L g thr).filter (fun l => decide (l.id ∉ a0))

lemma mem_insertOrIgnore (tbl : List String) (i x : String) :
    x ∈ insertOrIgnore tbl i ↔ x ∈ tbl ∨ x = i := by
  unfold insertOrIgnore
  split
  · rename_i h
    constructor
    · exact Or.inl
    · rintro (h' | rfl)
      · exact h'
      · exact h
  · simp [List.mem_append]

lemma processListings_fst (g : Godroll) (a0 : List String) :
    ∀ (ls : List Listing) (acc : List Deal × List String),
      (processListings g a0 ls acc).1
        = acc.1 ++ (ls.filter (fun l => decide (l.id ∉ a0))).map (mkDeal g) := by
  intro ls
  induction ls with
  | nil => intro acc; simp [processListings]
  | cons l rest ih =>
      intro acc
      by_cases h : l.id ∈ a0
      · simp only [processListings, if_pos h, ih, List.filter_cons]
        simp [h]
      · simp only [processListings, if_neg h, ih, List.filter_cons]
        simp [h]

lemma processListings_snd_mem (g : Godroll) (a0 : List String) :
    ∀ (ls : List Listing) (acc : List Deal × List String) (x : String),
      x ∈ (processListings g a0 ls acc).2 ↔
        x ∈ acc.2 ∨ ∃ l ∈ ls, l.id ∉ a0 ∧ x = l.id := by
  intro ls
  induction ls with
  | nil => intro acc x; simp [processListings]
  | cons l rest ih =>
      intro acc x
      by_cases h : l.id ∈ a0
      · rw [show processListings g a0 (l :: rest) acc
              = processListings g a0 rest acc from by simp [processListings, h]]
        rw [ih]
        constructor
        · rintro (hx | ⟨l', hl', hni, rfl⟩)
          · exact Or.inl hx
          · exact Or.inr ⟨l', List.mem_cons_of_mem _ hl', hni, rfl⟩
        · rintro (hx | ⟨l', hl', hni, rfl⟩)
          · exact Or.inl hx
          · rcases List.mem_cons.mp hl' with rfl | hl'
            · exact absurd h hni
            · exact Or.inr ⟨l', hl', hni, rfl⟩
      · rw [show processListings g a0 (l :: rest) acc
              = processListings g a0 rest
                  (acc.1 ++ [mkDeal g l], insertOrIgnore acc.2 l.id) from by
            simp [processListings, h]]
        rw [ih]
        simp only [mem_insertOrIgnore]
        constructor
        · rintro ((hx | rfl) | ⟨l', hl', hni, rfl⟩)
          · exact Or.inl hx
          · exact Or.inr ⟨l, List.mem_cons_self _ _, h, rfl⟩
          · exact Or.inr ⟨l', List.mem_cons_of_mem _ hl', hni, rfl⟩
        · rintro (hx | ⟨l', hl', hni, rfl⟩)
          · exact Or.inl (Or.inl hx)
          · rcases List.mem_cons.mp hl' with rfl | hl'
            · exact Or.inl (Or.inr rfl)
            · exact Or.inr ⟨l', hl', hni, rfl⟩

lemma processGodrolls_fst (L : List Listing) (thr : ℚ) (a0 : List String) :
    ∀ (gs : List Godroll) (acc : List Deal × List String),
      (processGodrolls L thr a0 gs acc).1
        = acc.1 ++ (gs.map (fun g => (newCandidates L thr a0 g).map (mkDeal g))).flatten := by
  intro gs
  induction gs with
  | nil => intro acc; simp [processGodrolls]
  | cons g gs ih =>
      intro acc
      rw [show processGodrolls L thr a0 (g :: gs) acc
            = processGodrolls L thr a0 gs
                (processListings g a0 (cheapListings L g thr) acc) from rfl]
      rw [ih, processListings_fst]
      simp [newCandidates, List.append_assoc]

lemma processGodrolls_snd_mem (L : List Listing) (thr : ℚ) (a0 : List String) :
    ∀ (gs : List Godroll) (acc : List Deal × List String) (x : String),
      x ∈ (processGodrolls L thr a0 gs acc).2 ↔
        x ∈ acc.2 ∨ ∃ g ∈ gs, ∃ l ∈ newCandidates L thr a0 g, x = l.id := by
  intro gs
  induction gs with
  | nil => intro acc x; simp [processGodrolls]
  | cons g gs ih =>
      intro acc x
      rw [show processGodrolls L thr a0 (g :: gs) acc
            = processGodrolls L thr a0 gs
                (processListings g a0 (cheapListings L g thr) acc) from rfl]
      rw [ih, processListings_snd_mem]
      constructor
      · rintro ((hx | ⟨l, hl, hni, rfl⟩) | ⟨g', hg', l, hl, rfl⟩)
        · exact Or.inl hx
        · exact Or.inr ⟨g, List.mem_cons_self _ _, l,
            List.mem_filter.mpr ⟨hl, by simpa using hni⟩, rfl⟩
        · exact Or.inr ⟨g', List.mem_cons_of_mem _ hg', l, hl, rfl⟩
      · rintro (hx | ⟨g', hg', l, hl, rfl⟩)
        · exact Or.inl (Or.inl hx)
        · rcases List.mem_cons.mp hg' with rfl | hg'
          · obtain ⟨hl', hni⟩ := List.mem_filter.mp hl
            exact Or.inl (Or.inr ⟨l, hl', by simpa using hni, rfl⟩)
          · exact Or.inr ⟨g', hg', l, hl, rfl⟩

lemma find_deals_fst (L : List Listing) (G : List Godroll) (thr : ℚ) (a : List String) :
    (find_deals L G thr a).1
      = (G.map (fun g => (newCandidates L thr a g).map (mkDeal g))).flatten := by
  unfold find_deals
  rw [processGodrolls_fst]
  rfl

lemma find_deals_snd_mem (L : List Listing) (G : List Godroll) (thr : ℚ)
    (a : List String) (x : String) :
    x ∈ (find_deals L G thr a).2 ↔
      x ∈ a ∨ ∃ g ∈ G, ∃ l ∈ newCandidates L thr a g, x = l.id := by
  unfold find_deals
  rw [processGodrolls_snd_mem]

lemma mem_cheapListings_elim {L : List Listing} {g : Godroll} {thr : ℚ} {l : Listing}
    (h : l ∈ cheapListings L g thr) : l ∈ L ∧ matchesGodroll g thr l = true := by
  unfold cheapListings at h
  have h1 : l ∈ (L.filter (matchesGodroll g thr)).insertionSort
      (fun a b => b.scraped_at ≤ a.scraped_at) := List.take_subset _ _ h
  have h2 : l ∈ L.filter (matchesGodroll g thr) := (List.mem_insertionSort _).mp h1
  exact ⟨List.mem_of_mem_filter h2, List.of_mem_filter h2⟩

lemma matchesGodroll_elim {g : Godroll} {thr : ℚ} {l : Listing}
    (h : matchesGodroll g thr l = true) :
    l.key = g.key ∧ 0 < l.price ∧ (l.price : ℚ) ≤ g.median_price * thr := by
  unfold matchesGodroll at h
  simp only [Bool.and_eq_true, decide_eq_true_eq] at h
  exact ⟨h.1.1, h.2, h.1.2⟩

lemma cheapListings_ids_nodup {L : List Listing}
    (hL : (L.map Listing.id).Nodup) (g : Godroll) (thr : ℚ) :
    ((cheapListings L g thr).map Listing.id).Nodup := by
  unfold cheapListings
  have h1 : ((L.filter (matchesGodroll g thr)).map Listing.id).Nodup :=
    hL.sublist ((List.filter_sublist L).map Listing.id)
  have h2 : (((L.filter (matchesGodroll g thr)).insertionSort
      (fun a b => b.scraped_at ≤ a.scraped_at)).map Listing.id).Nodup :=
    ((List.perm_insertionSort _ _).map Listing.id).nodup_iff.mpr h1
  exact h2.sublist ((List.take_sublist _ _).map Listing.id)

lemma newCandidates_ids_nodup {L : List Listing}
    (hL : (L.map Listing.id).Nodup) (thr : ℚ) (a0 : List String) (g : Godroll) :
    ((newCandidates L thr a0 g).map Listing.id).Nodup :=
  (cheapListings_ids_nodup hL g thr).sublist
    ((List.filter_sublist (cheapListings L g thr)).map Listing.id)

lemma mem_newCandidates_elim {L : List Listing} {thr : ℚ} {a0 : List String}
    {g : Godroll} {l : Listing} (h : l ∈ newCandidates L thr a0 g) :
    l ∈ L ∧ l.key = g.key ∧ l.id ∉ a0 := by
  obtain ⟨hc, hni⟩ := List.mem_filter.mp h
  obtain ⟨hmem, hmatch⟩ := mem_cheapListings_elim hc
  exact ⟨hmem, (matchesGodroll_elim hmatch).1, by simpa using hni⟩

lemma comp_map_id_eq (L : List Listing) (thr : ℚ) (a : List String) (g : Godroll) :
    ((newCandidates L thr a g).map (mkDeal g)).map Deal.id
      = (newCandidates L thr a g).map Listing.id := by
  rw [List.map_map]
  exact List.map_congr_left (fun l _ => rfl)

lemma find_deals_ids_nodup {L : List Listing} {G : List Godroll}
    (hL : (L.map Listing.id).Nodup) (hG : (G.map Godroll.key).Nodup)
    (thr : ℚ) (a : List String) :
    (((find_deals L G thr a).1).map Deal.id).Nodup := by
  rw [find_deals_fst, List.map_flatten, List.map_map, List.nodup_flatten]
  constructor
  · intro l' hl'
    obtain ⟨g, _, rfl⟩ := List.mem_map.mp hl'
    simpa [Function.comp_apply, comp_map_id_eq] using newCandidates_ids_nodup hL thr a g
  · have hpw : G.Pairwise (fun g g' => g.key ≠ g'.key) := by
      rw [List.Nodup, List.pairwise_map] at hG
      exact hG
    rw [List.pairwise_map]
    refine hpw.imp ?_
    intro g g' hkey x hx hx'
    have hx1 : x ∈ (newCandidates L thr a g).map Listing.id := by
      simpa [Function.comp_apply, comp_map_id_eq] using hx
    have hx2 : x ∈ (newCandidates L thr a g').map Listing.id := by
      simpa [Function.comp_apply, comp_map_id_eq] using hx'
    obtain ⟨l, hl, rfl⟩ := List.mem_map.mp hx1
    obtain ⟨l', hl', heq⟩ := List.mem_map.mp hx2
    obtain ⟨hlL, hlk, -⟩ := mem_newCandidates_elim hl
    obtain ⟨hlL', hlk', -⟩ := mem_newCandidates_elim hl'
    have : l' = l := List.inj_on_of_nodup_map hL hlL' hlL heq
    subst this
    exact hkey (hlk.symm.trans hlk')

lemma find_deals_mem_fst_elim {L : List Listing} {G : List Godroll} {thr : ℚ}
    {a : List String} {d : Deal} (hd : d ∈ (find_deals L G thr a).1) :
    ∃ g ∈ G, ∃ l ∈ newCandidates L thr a g, d = mkDeal g l := by
  rw [find_deals_fst] at hd
  obtain ⟨dl, hdl, hdmem⟩ := List.mem_flatten.mp hd
  obtain ⟨g, hg, rfl⟩ := List.mem_map.mp hdl
  obtain ⟨l, hl, rfl⟩ := List.mem_map.mp hdmem
  exact ⟨g, hg, l, hl, rfl⟩

lemma find_deals_id_not_mem_pre {L : List Listing} {G : List Godroll} {thr : ℚ}
    {a : List String} {d : Deal} (hd : d ∈ (find_deals L G thr a).1) :
    d.id ∉ a := by
  obtain ⟨g, -, l, hl, rfl⟩ := find_deals_mem_fst_elim hd
  exact (mem_newCandidates_elim hl).2.2

lemma find_deals_id_mem_post {L : List Listing} {G : List Godroll} {thr : ℚ}
    {a : List String} {d : Deal} (hd : d ∈ (find_deals L G thr a).1) :
    d.id ∈ (find_deals L G thr a).2 := by
  obtain ⟨g, hg, l, hl, rfl⟩ := find_deals_mem_fst_elim hd
  exact (find_deals_snd_mem L G thr a _).mpr (Or.inr ⟨g, hg, l, hl, rfl⟩)

lemma find_deals_pre_subset (L : List Listing) (G : List Godroll) (thr : ℚ)
    (a : List String) : a ⊆ (find_deals L G thr a).2 := by
  intro x hx
  exact (find_deals_snd_mem L G thr a x).mpr (Or.inl hx)

lemma runChain_ids_not_in_init :
    ∀ (inputs : List FDInput) (a : List String) (k : ℕ)
      (hk : k < (runChain inputs a).1.length) (d : Deal),
      d ∈ (runChain inputs a).1.get ⟨k, hk⟩ → d.id ∉ a := by
  intro inputs
  induction inputs with
  | nil => intro a k hk; simp [runChain] at hk
  | cons inp rest ih =>
      intro a k hk d hd
      cases k with
      | zero => exact find_deals_id_not_mem_pre hd
      | succ k =>
          have hk' : k < (runChain rest
              (find_deals inp.listings inp.godrolls inp.threshold a).2).1.length := by
            simpa [runChain] using hk
          have hd' : d ∈ (runChain rest
              (find_deals inp.listings inp.godrolls inp.threshold a).2).1.get ⟨k, hk'⟩ := hd
          intro hmem
          exact ih _ k hk' d hd'
            (find_deals_pre_subset inp.listings inp.godrolls inp.threshold a hmem)

lemma runChain_calls_disjoint :
    ∀ (inputs : List FDInput) (a : List String) (i j : ℕ)
      (hi : i < (runChain inputs a).1.length)
      (hj : j < (runChain inputs a).1.length), i < j →
      ∀ d ∈ (runChain inputs a).1.get ⟨i, hi⟩,
        ∀ e ∈ (runChain inputs a).1.get ⟨j, hj⟩, d.id ≠ e.id := by
  intro inputs
  induction inputs with
  | nil => intro a i j hi; simp [runChain] at hi
  | cons inp rest ih =>
      intro a i j hi hj hij d hd e he
      cases j with
      | zero => omega
      | succ j =>
          have hj' : j < (runChain rest
              (find_deals inp.listings inp.godrolls inp.threshold a).2).1.length := by
            simpa [runChain] using hj
          have he' : e ∈ (runChain rest
              (find_deals inp.listings inp.godrolls inp.threshold a).2).1.get ⟨j, hj'⟩ := he
          cases i with
          | zero =>
              have hd' : d ∈ (find_deals inp.listings inp.godrolls inp.threshold a).1 := hd
              have h1 := find_deals_id_mem_post hd'
              have h2 := runChain_ids_not_in_init rest _ j hj' e he'
              intro heq
              rw [heq] at h1
              exact h2 h1
          | succ i =>
              have hi' : i < (runChain rest
                  (find_deals inp.listings inp.godrolls inp.threshold a).2).1.length := by
                simpa [runChain] using hi
              have hd' : d ∈ (runChain rest
                  (find_deals inp.listings inp.godrolls inp.threshold a).2).1.get ⟨i, hi'⟩ := hd
              exact ih _ i j hi' hj' (by omega) d hd' e he'

lemma runChain_nodup_calls :
    ∀ (inputs : List FDInput) (a : List String),
      (∀ inp ∈ inputs, (inp.listings.map Listing.id).Nodup) →
      (∀ inp ∈ inputs, (inp.godrolls.map Godroll.key).Nodup) →
      ∀ ds ∈ (runChain inputs a).1, (ds.map Deal.id).Nodup := by
  intro inputs
  induction inputs with
  | nil => intro a _ _ ds hds; simp [runChain] at hds
  | cons inp rest ih =>
      intro a hL hG ds hds
      have hds' : ds = (find_deals inp.listings inp.godrolls inp.threshold a).1
          ∨ ds ∈ (runChain rest
              (find_deals inp.listings inp.godrolls inp.threshold a).2).1 := by
        simpa [runChain] using hds
      rcases hds' with rfl | hds'
      · exact find_deals_ids_nodup (hL inp (List.mem_cons_self _ _))
          (hG inp (List.mem_cons_self _ _)) _ _
      · exact ih _ (fun i hi => hL i (List.mem_cons_of_mem _ hi))
          (fun i hi => hG i (List.mem_cons_of_mem _ hi)) ds hds'

/-- C1: across any sequence of `find_deals` calls sharing (threading) the
persisted `alerted_listings` state, no observation id appears in the deal
lists of two different calls — even if the observation still satisfies the
price threshold at the later call — nor twice within one call (given the
store's primary-key invariants: listing ids unique per call, godroll keys
unique per call); and every returned deal's observation id is in the
`alerted_listings` state the call returns. -/
theorem c1_at_most_once_alerting (inputs : List FDInput) (a0 : List String)
    (hL : ∀ inp ∈ inputs, (inp.listings.map Listing.id).Nodup)
    (hG : ∀ inp ∈ inputs, (inp.godrolls.map Godroll.key).Nodup) :
    (∀ ds ∈ (runChain inputs a0).1, (ds.map Deal.id).Nodup)
    ∧ (∀ (i j : ℕ) (hi : i < (runChain inputs a0).1.length)
        (hj : j < (runChain inputs a0).1.length), i < j →
        ∀ d ∈ (runChain inputs a0).1.get ⟨i, hi⟩,
          ∀ e ∈ (runChain inputs a0).1.get ⟨j, hj⟩, d.id ≠ e.id)
    ∧ (∀ (L : List Listing) (G : List Godroll) (thr : ℚ) (a : List String)
        (d : Deal), d ∈ (find_deals L G thr a).1 → d.id ∈ (find_deals L G thr a).2) :=
  ⟨runChain_nodup_calls inputs a0 hL hG,
   fun i j hi hj hij => runChain_calls_disjoint inputs a0 i j hi hj hij,
   fun _ _ _ _ _ hd => find_deals_id_mem_post hd⟩

/-- Example godroll for C6/C1 witnesses: median price 100. -/
def exampleGodroll : Godroll :=
  ⟨"soma", "crit_chance", "damage", "", "recoil", 100, 6, 83⟩

/-- Example listing for C6/C1 witnesses: price 55 on the example profile. -/
def exampleListing : Listing :=
  ⟨"rm-9", "bob", "riven.market", "soma", "crit_chance", "damage", "", "recoil",
    55, "2024-02-01T00:00:00"⟩

/-- C6: per godroll, `find_deals` considers only listings whose profile key
exactly equals the godroll's key and whose price satisfies
`0 < price ≤ median_price * threshold`, taking at most 10, ordered by
`scraped_at` descending; every emitted deal is built from its godroll and
such a listing and carries
`discount_percentage = (median_price - price) / median_price * 100`;
price 55 against median 100 yields discount 45. -/
theorem c6_deal_query_shape :
    (∀ (L : List Listing) (g : Godroll) (thr : ℚ), (cheapListings L g thr).length ≤ 10)
    ∧ (∀ (L : List Listing) (g : Godroll) (thr : ℚ),
        (cheapListings L g thr).Sorted (fun a b => b.scraped_at ≤ a.scraped_at))
    ∧ (∀ (L : List Listing) (g : Godroll) (thr : ℚ) (l : Listing),
        l ∈ cheapListings L g thr →
          l.key = g.key ∧ 0 < l.price ∧ (l.price : ℚ) ≤ g.median_price * thr)
    ∧ (∀ (L : List Listing) (G : List Godroll) (thr : ℚ) (a : List String) (d : Deal),
        d ∈ (find_deals L G thr a).1 →
          ∃ g ∈ G, ∃ l ∈ cheapListings L g thr, d = mkDeal g l
            ∧ d.discount_percentage
                = (g.median_price - (l.price : ℚ)) / g.median_price * 100)
    ∧ (mkDeal exampleGodroll exampleListing).discount_percentage = 45
    ∧ exampleListing ∈ cheapListings [exampleListing] exampleGodroll DEAL_THRESHOLD := by
  refine ⟨?_, ?_, ?_, ?_, ?_, ?_⟩
  · intro L g thr
    unfold cheapListings
    exact List.length_take_le _ _
  · intro L g thr
    unfold cheapListings
    exact List.Pairwise.sublist (List.take_sublist _ _) (List.sorted_insertionSort _ _)
  · intro L g thr l hl
    exact matchesGodroll_elim (mem_cheapListings_elim hl).2
  · intro L G thr a d hd
    obtain ⟨g, hg, l, hl, rfl⟩ := find_deals_mem_fst_elim hd
    exact ⟨g, hg, l, List.mem_of_mem_filter hl, rfl, rfl⟩
  · norm_num [mkDeal, exampleGodroll, exampleListing]
  · norm_num [cheapListings, matchesGodroll, exampleGodroll, exampleListing,
      DEAL_THRESHOLD, Listing.key, Godroll.key, List.insertionSort,
      List.orderedInsert, List.filter]

/-- C6 witness: the example listing (price 55) is a considered candidate of
the example godroll (median 100) and satisfies the query conditions. -/
theorem c6_deal_query_shape_witness :
    exampleListing.key = exampleGodroll.key
    ∧ 0 < exampleListing.price
    ∧ (exampleListing.price : ℚ) ≤ exampleGodroll.median_price * DEAL_THRESHOLD :=
  c6_deal_query_shape.2.2.1 [exampleListing] exampleGodroll DEAL_THRESHOLD
    exampleListing c6_deal_query_shape.2.2.2.2.2

/-- A `find_deals` call input for the C1 witness chain. -/
def chainInput : FDInput := ⟨[exampleListing], [exampleGodroll], DEAL_THRESHOLD⟩

/-- C1 witness: a two-call chain on the same threaded store state, with
unique listing ids and godroll keys, satisfies the at-most-once
properties. -/
theorem c1_at_most_once_alerting_witness :
    ((∀ inp ∈ [chainInput, chainInput], (inp.listings.map Listing.id).Nodup)
      ∧ (∀ inp ∈ [chainInput, chainInput], (inp.godrolls.map Godroll.key).Nodup))
    ∧ ((∀ ds ∈ (runChain [chainInput, chainInput] []).1, (ds.map Deal.id).Nodup)
      ∧ (∀ (i j : ℕ) (hi : i < (runChain [chainInput, chainInput] []).1.length)
          (hj : j < (runChain [chainInput, chainInput] []).1.length), i < j →
          ∀ d ∈ (runChain [chainInput, chainInput] []).1.get ⟨i, hi⟩,
            ∀ e ∈ (runChain [chainInput, chainInput] []).1.get ⟨j, hj⟩, d.id ≠ e.id)
      ∧ (∀ (L : List Listing) (G : List Godroll) (thr : ℚ) (a : List String)
          (d : Deal), d ∈ (find_deals L G thr a).1 → d.id ∈ (find_deals L G thr a).2)) :=
  ⟨⟨by decide, by decide⟩,
    c1_at_most_once_alerting [chainInput, chainInput] [] (by decide) (by decide)⟩

/-! ## Helper lemmas: order-independence of normalization (C8) -/

/-- The per-slot canonicalization of `normalize_riven_stats`, over a list of
slots: fail as soon as one slot fails. -/
def canonStats (src : String) : List String → Option (List String)
  | [] => some []
  | s :: rest =>
      match normStat s src, canonStats src rest with
      | some c, some cs => some (c :: cs)
      | _, _ => none

lemma canonStats_perm {src : String} :
    ∀ {l l' : List String}, l.Perm l' →
      (canonStats src l = none → canonStats src l' = none)
      ∧ (∀ cs, canonStats src l = some cs →
          ∃ cs', canonStats src l' = some cs' ∧ cs.Perm cs') := by
  intro l l' hp
  induction hp with
  | nil => exact ⟨fun h => h, fun cs h => ⟨cs, h, List.Perm.refl _⟩⟩
  | cons x h ih =>
      rename_i l₁ l₂
      constructor
      · intro hn
        cases hx : normStat x src with
        | none => simp [canonStats, hx]
        | some c =>
            cases hl : canonStats src l₁ with
            | none => simp [canonStats, hx, ih.1 hl]
            | some cs => simp [canonStats, hx, hl] at hn
      · intro cs hs
        cases hx : normStat x src with
        | none => simp [canonStats, hx] at hs
        | some c =>
            cases hl : canonStats src l₁ with
            | none => simp [canonStats, hx, hl] at hs
            | some cs₁ =>
                obtain ⟨cs₂, hcs₂, hperm⟩ := ih.2 cs₁ hl
                have hcs : cs = c :: cs₁ := by
                  simp [canonStats, hx, hl] at hs
                  exact hs.symm
                subst hcs
                exact ⟨c :: cs₂, by simp [canonStats, hx, hcs₂], hperm.cons c⟩
  | swap x y l =>
      constructor
      · intro hn
        cases hx : normStat x src <;> cases hy : normStat y src <;>
          cases hl : canonStats src l <;> simp_all [canonStats]
      · intro cs hs
        cases hx : normStat x src <;> cases hy : normStat y src <;>
          cases hl : canonStats src l <;> simp [canonStats, hx, hy, hl] at hs ⊢
        subst hs
        exact List.Perm.swap _ _ _
  | trans h1 h2 ih1 ih2 =>
      exact ⟨fun h => ih2.1 (ih1.1 h),
        fun cs h =>
          let ⟨cs', h', p'⟩ := ih1.2 cs h
          let ⟨cs'', h'', p''⟩ := ih2.2 cs' h'
          ⟨cs'', h'', p'.trans p''⟩⟩

lemma canonStats_three (s1 s2 s3 src : String) :
    canonStats src [s1, s2, s3]
      = match normStat s1 src, normStat s2 src, normStat s3 src with
        | some a, some b, some c => some [a, b, c]
        | _, _, _ => none := by
  cases h1 : normStat s1 src <;> cases h2 : normStat s2 src <;>
    cases h3 : normStat s3 src <;> simp [canonStats, h1, h2, h3]

/-- `normalize` factored through `canonStats` on the three positive slots. -/
lemma normalize_eq_canon (w s1 s2 s3 s4 src : String) :
    normalize w s1 s2 s3 s4 src
      = match canonStats src [s1, s2, s3], normStat s4 src with
        | some cs, some d =>
            some (normalize_weapon_name w ::
              (((cs.filter (fun s => s ≠ "")).insertionSort (· ≤ ·)
                ++ List.replicate
                    (3 - ((cs.filter (fun s => s ≠ "")).insertionSort (· ≤ ·)).length) "")
                ++ [d]))
        | _, _ => none := by
  rw [canonStats_three]
  unfold normalize normalize_riven_stats
  cases h1 : normStat s1 src <;> cases h2 : normStat s2 src <;>
    cases h3 : normStat s3 src <;> cases h4 : normStat s4 src <;>
    simp [sort_positive_stats]

/-- Sorting the non-empty entries is invariant under permutation of the
canonical slot values. -/
lemma sortedPositives_perm {cs cs' : List String} (hp : cs.Perm cs') :
    (cs.filter (fun s => s ≠ "")).insertionSort (· ≤ ·)
      = (cs'.filter (fun s => s ≠ "")).insertionSort (· ≤ ·) := by
  have hfilter := hp.filter (fun s => decide (s ≠ ""))
  have hperm : ((cs.filter (fun s => s ≠ "")).insertionSort (· ≤ ·)).Perm
      ((cs'.filter (fun s => s ≠ "")).insertionSort (· ≤ ·)) :=
    ((List.perm_insertionSort _ _).trans hfilter).trans
      (List.perm_insertionSort _ _).symm
  exact List.eq_of_perm_of_sorted hperm
    (List.sorted_insertionSort _ _) (List.sorted_insertionSort _ _)

/-- C8: `normalize` is invariant under any permutation of the three positive
slots; on success the key is the normalized weapon name followed by the
canonical positives sorted ascending and right-padded with empty strings to
three slots, with the canonical negative slot passed through last. -/
theorem c8_order_independent (w s1 s2 s3 s4 t1 t2 t3 src : String)
    (hp : ([s1, s2, s3] : List String).Perm [t1, t2, t3]) :
    normalize w s1 s2 s3 s4 src = normalize w t1 t2 t3 s4 src
    ∧ (∀ r, normalize w s1 s2 s3 s4 src = some r →
        ∃ a b c d,
          normalize_riven_stats s1 s2 s3 s4 src = some (a, b, c, d)
          ∧ normStat s4 src = some d
          ∧ r = normalize_weapon_name w ::
              ((([a, b, c].filter (fun s => s ≠ "")).insertionSort (· ≤ ·)
                ++ List.replicate
                    (3 - (([a, b, c].filter (fun s => s ≠ "")).insertionSort (· ≤ ·)).length) "")
                ++ [d])
          ∧ (([a, b, c].filter (fun s => s ≠ "")).insertionSort (· ≤ ·)).Sorted (· ≤ ·)) := by
  constructor
  · rw [normalize_eq_canon w s1 s2 s3 s4 src, normalize_eq_canon w t1 t2 t3 s4 src]
    cases hc : canonStats src [s1, s2, s3] with
    | none => rw [(canonStats_perm hp).1 hc]
    | some cs =>
        obtain ⟨cs', hcs', hcperm⟩ := (canonStats_perm hp).2 cs hc
        rw [hcs']
        cases hd : normStat s4 src with
        | none => rfl
        | some d =>
            show some (normalize_weapon_name w ::
                (((cs.filter (fun s => s ≠ "")).insertionSort (· ≤ ·)
                  ++ List.replicate
                      (3 - ((cs.filter (fun s => s ≠ "")).insertionSort (· ≤ ·)).length) "")
                  ++ [d]))
              = some (normalize_weapon_name w ::
                (((cs'.filter (fun s => s ≠ "")).insertionSort (· ≤ ·)
                  ++ List.replicate
                      (3 - ((cs'.filter (fun s => s ≠ "")).insertionSort (· ≤ ·)).length) "")
                  ++ [d]))
            rw [sortedPositives_perm hcperm]
  · intro r h
    obtain ⟨a, b, c, d, hq, hr⟩ := normalize_eq_some_elim w s1 s2 s3 s4 src r h
    obtain ⟨-, -, -, hd⟩ := normalize_riven_stats_elim s1 s2 s3 s4 src a b c d hq
    exact ⟨a, b, c, d, hq, hd, hr, List.sorted_insertionSort _ _⟩

/-- C8 witness: a concrete permutation of the positive slots yields the
identical profile key, with the stated sorted/padded shape on success. -/
theorem c8_order_independent_witness :
    (["CritChance", "Damage", ""] : List String).Perm ["", "Damage", "CritChance"]
    ∧ (normalize "Soma" "CritChance" "Damage" "" "Recoil" "riven.market"
        = normalize "Soma" "" "Damage" "CritChance" "Recoil" "riven.market"
      ∧ (∀ r, normalize "Soma" "CritChance" "Damage" "" "Recoil" "riven.market" = some r →
          ∃ a b c d,
            normalize_riven_stats "CritChance" "Damage" "" "Recoil" "riven.market"
              = some (a, b, c, d)
            ∧ normStat "Recoil" "riven.market" = some d
            ∧ r = normalize_weapon_name "Soma" ::
                ((([a, b, c].filter (fun s => s ≠ "")).insertionSort (· ≤ ·)
                  ++ List.replicate
                      (3 - (([a, b, c].filter (fun s => s ≠ "")).insertionSort (· ≤ ·)).length) "")
                  ++ [d])
            ∧ (([a, b, c].filter (fun s => s ≠ "")).insertionSort (· ≤ ·)).Sorted (· ≤ ·))) :=
  ⟨by decide,
    c8_order_independent "Soma" "CritChance" "Damage" "" "Recoil" "" "Damage" "CritChance"
      "riven.market" (by decide)⟩

end RivenSniper
